import Mathlib

/-!
Shallow embedding of the Polymarket trade indexer
(`src/indexer/run.py`, `src/indexer/market_discovery.py`, `src/db/store.py`,
`src/db/schema.py`) and proofs about its normalizer, resolver, store and
checkpoint behaviour.

Modelling conventions:
* SQLite tables become Lean lists of rows; `INSERT OR IGNORE` and
  `INSERT OR REPLACE` become explicit conditional updates.
* Python `Decimal`/`float` arithmetic on amounts is embedded in `ℚ`; the
  `try/except`-guarded divisions of `decode_and_process_log` become explicit
  zero tests.
* The chain RPC (`get_logs`, `get_block`) and the Gamma registry HTTP fetch
  are external collaborators; they are passed in as oracle parameters
  (a fetch result, a block-to-timestamp map, a slug-to-raw-markets map).
* Exceptions that a function raises to its caller are modelled by an explicit
  outcome constructor; exceptions it catches internally are modelled by the
  branch the handler takes.
-/

/-- Python `str.lower()` restricted to the ASCII case mapping, as a map over
the string's characters. -/
def strLower (s : String) : String := String.mk (s.data.map Char.toLower)

/-- Python `str.upper()` restricted to the ASCII case mapping. -/
def strUpper (s : String) : String := String.mk (s.data.map Char.toUpper)

/-- Python `hex(n)` for a non-negative integer: lowercase hexadecimal digits
with a `0x` prefix (`hex(0) = "0x0"`). -/
def pyHex (n : Nat) : String := "0x" ++ String.mk (Nat.toDigits 16 n)

/-- Canonical token-id rendering used by both `run.py` line 153 and
`market_discovery.py` line 74: `hex(int(tid)).lower()`. -/
def tokenHex (n : Nat) : String := strLower (pyHex n)

/-- One row of the `markets` table (schema.py lines 10-19). `id` is the
AUTOINCREMENT primary key; every other column is nullable. -/
structure MarketRow where
  id : Nat
  slug : Option String
  condition_id : Option String
  question_id : Option String
  yes_token_id : Option String
  no_token_id : Option String
  status : Option String
deriving DecidableEq

/-- One row of the `trades` table, together with the two extra fields
(`token_id`, `block_number`) that `decode_and_process_log` puts in the trade
dict for debugging (run.py lines 191-205). -/
structure Trade where
  tx_hash : String
  log_index : Nat
  market_id : Nat
  maker : String
  taker : String
  side : String
  outcome : String
  price : ℚ
  size : ℚ
  timestamp : Nat
  token_id : String
  block_number : Nat
deriving DecidableEq

/-- The persistent state behind a `Store`: the `markets` table (with its next
AUTOINCREMENT id), the `trades` table, and the `sync_state` row for key
`last_block` (`none` when the row is absent). -/
structure StoreState where
  markets : List MarketRow
  nextMarketId : Nat
  trades : List Trade
  syncState : Option Nat
deriving DecidableEq

/-- A fresh store right after `init_db`: empty tables, AUTOINCREMENT at 1,
and `last_block` initialized to 0 by schema.py line 61. -/
def initStore : StoreState := { markets := [], nextMarketId := 1, trades := [], syncState := some 0 }

/-- Store.fetch_market_by_token_id (store.py lines 143-160): first row whose
`yes_token_id` or `no_token_id` equals the given token id (SQL `=` on a NULL
column is false, hence the comparison against `some`). -/
def fetchMarketByTokenId (s : StoreState) (tokenId : String) : Option MarketRow :=
  s.markets.find? (fun r => r.yes_token_id == some tokenId || r.no_token_id == some tokenId)

/-- Whether the `trades` table already holds a row with this row's
`(tx_hash, log_index)` key (the unique index of schema.py line 46). -/
def tradeKeyMem (tbl : List Trade) (t : Trade) : Bool :=
  tbl.any (fun r => r.tx_hash == t.tx_hash && r.log_index == t.log_index)

/-- Effect of `INSERT OR IGNORE` for a single trade row: a row whose
`(tx_hash, log_index)` key is already present is silently skipped. -/
def insertTradeOne (tbl : List Trade) (t : Trade) : List Trade :=
  if tradeKeyMem tbl t then tbl else tbl ++ [t]

/-- Store.insert_trades (store.py lines 77-100): early return on an empty
list, otherwise `executemany` of `INSERT OR IGNORE` over the batch inside one
transaction. -/
def insertTrades (s : StoreState) (ts : List Trade) : StoreState :=
  if ts.isEmpty then s else { s with trades := ts.foldl insertTradeOne s.trades }

/-- Store.update_sync_state (store.py lines 102-115): `INSERT OR REPLACE`
of the `('last_block', block_number)` row — an unconditional overwrite. -/
def updateSyncState (s : StoreState) (blockNumber : Nat) : StoreState :=
  { s with syncState := some blockNumber }

/-- Store.get_sync_state (store.py lines 117-128): the stored value, or 0
when the row is absent. -/
def getSyncState (s : StoreState) : Nat := s.syncState.getD 0

/-- The dictionary produced by `process_market_data` and consumed by
`Store.upsert_market`. `status` is always set by `process_market_data`. -/
structure MarketData where
  slug : Option String
  condition_id : Option String
  question_id : Option String
  yes_token_id : Option String
  no_token_id : Option String
  status : String
deriving DecidableEq

/-- Store.upsert_market (store.py lines 29-75): select by `condition_id`
(matching nothing when it is NULL), update the mutable columns of the found
row, otherwise insert a fresh row with the next AUTOINCREMENT id. The update
never touches `condition_id` or `id`. -/
def upsertMarket (s : StoreState) (md : MarketData) : StoreState :=
  match md.condition_id with
  | none =>
    { s with
      markets := s.markets ++
        [⟨s.nextMarketId, md.slug, none, md.question_id, md.yes_token_id, md.no_token_id,
          some md.status⟩],
      nextMarketId := s.nextMarketId + 1 }
  | some c =>
    match s.markets.find? (fun r => r.condition_id == some c) with
    | some row =>
      { s with
        markets := s.markets.map (fun r =>
          if r.id == row.id then
            { r with slug := md.slug, question_id := md.question_id,
                     yes_token_id := md.yes_token_id, no_token_id := md.no_token_id,
                     status := some md.status }
          else r) }
    | none =>
      { s with
        markets := s.markets ++
          [⟨s.nextMarketId, md.slug, some c, md.question_id, md.yes_token_id, md.no_token_id,
            some md.status⟩],
        nextMarketId := s.nextMarketId + 1 }

/-- One market entry of the Gamma API response, after the purely syntactic
JSON decoding steps of `process_market_data` (the `clobTokenIds` decimal
strings are already parsed to integers, `outcomes` to a string list). -/
structure RawMarket where
  slug : Option String
  conditionId : Option String
  questionID : Option String
  questionId : Option String
  active : Bool
  closed : Bool
  resolved : Bool
  clobTokenIds : List Nat
  outcomes : List String
deriving DecidableEq

/-- process_market_data (market_discovery.py lines 37-121): case-normalize
ids, derive the status, render token ids in canonical hex, reject empty or
length-mismatched token/outcome lists, then scan outcomes for `YES`/`NO`
labels. A market missing either label is still returned (the code only logs
a warning and proceeds). -/
def processMarketData (m : RawMarket) : Option MarketData :=
  let question_id := match m.questionID with
    | some q => some q
    | none => m.questionId
  let status := if m.resolved then "RESOLVED"
                else if m.closed then "CLOSED"
                else if m.active then "ACTIVE" else "CLOSED"
  let condition_id := m.conditionId.map strLower
  let question_id := question_id.map strLower
  let tokens := m.clobTokenIds.map tokenHex
  if tokens.isEmpty || m.outcomes.isEmpty || tokens.length != m.outcomes.length then
    none
  else
    let yn := (m.outcomes.zip tokens).foldl
      (fun acc p =>
        if strUpper p.1 == "YES" then (some p.2, acc.2)
        else if strUpper p.1 == "NO" then (acc.1, some p.2)
        else acc)
      ((none : Option String), (none : Option String))
    some { slug := m.slug, condition_id := condition_id, question_id := question_id,
           yes_token_id := yn.1, no_token_id := yn.2, status := status }

/-- One step of the discovery loop (market_discovery.py lines 136-141):
process a raw market, and when it parses (`validate_market_tokens` always
returns True) upsert it and bump the stored count. -/
def discoverStep (acc : StoreState × Nat) (raw : RawMarket) : StoreState × Nat :=
  match processMarketData raw with
  | some md => (upsertMarket acc.1 md, acc.2 + 1)
  | none => acc

/-- discover_and_store_markets (market_discovery.py lines 130-144) applied to
the raw markets the registry returned for the slug: upsert each parseable
market and return the new store with the stored count. -/
def discoverAndStoreMarkets (fetched : List RawMarket) (s : StoreState) : StoreState × Nat :=
  fetched.foldl discoverStep (s, 0)

/-- The decoded `args` of one OrderFilled event (run.py lines 17-31). -/
structure FillArgs where
  orderHash : String
  maker : String
  taker : String
  makerAssetId : Nat
  takerAssetId : Nat
  makerAmountFilled : Nat
  takerAmountFilled : Nat
  fee : Nat
deriving DecidableEq

/-- One raw log as handed to `decode_and_process_log`. `decoded = none`
models a log on which `process_log` raises (ABI mismatch), `some args` a log
it decodes to `args`. -/
structure RawLog where
  address : String
  transactionHash : String
  logIndex : Nat
  blockNumber : Nat
  decoded : Option FillArgs
deriving DecidableEq

/-- Indexer.get_block_timestamp (run.py lines 54-65) against a fixed
block-to-timestamp oracle: `none` models an RPC failure, which the code turns
into 0. Memoization is transparent for a fixed oracle and is elided. -/
def getBlockTimestamp (tso : Nat → Option Nat) (blockNumber : Nat) : Nat :=
  (tso blockNumber).getD 0

/-- Result of processing one log: the store after any discovery side effect,
the produced trade (if the log was not dropped), and how many times
`discover_and_store_markets` was invoked. -/
structure ProcResult where
  store : StoreState
  trade : Option Trade
  discoveryCalls : Nat
deriving DecidableEq

/-- The market-resolution step of `decode_and_process_log` (run.py lines
155-164): look the token up; on a miss with an event slug supplied, run
discovery once and retry the lookup once. -/
def resolveMarket (registry : String → List RawMarket) (tokenIdHex : String)
    (eventSlug : Option String) (s : StoreState) : StoreState × Option MarketRow × Nat :=
  match fetchMarketByTokenId s tokenIdHex with
  | some mk => (s, some mk, 0)
  | none =>
    match eventSlug with
    | some slug =>
      let s1 := (discoverAndStoreMarkets (registry slug) s).1
      (s1, fetchMarketByTokenId s1 tokenIdHex, 1)
    | none => (s, none, 0)

/-- Outcome of the side/price/token/size derivation of
`decode_and_process_log` (run.py lines 129-153 and 183). -/
structure NormResult where
  price : ℚ
  tokenIdInt : Nat
  side : String
  size : ℚ
deriving DecidableEq

/-- The normalizer branch of `decode_and_process_log` (run.py lines 134-153
and 183): `makerAssetId == 0` means the maker buys a token with collateral,
any other value means the maker sells the token. The `try/except` around each
`Decimal` division is rendered as an explicit zero test on the divisor. -/
def normalizeFill (args : FillArgs) : NormResult :=
  if args.makerAssetId == 0 then
    { price := if args.takerAmountFilled == 0 then 0
               else (args.makerAmountFilled : ℚ) / (args.takerAmountFilled : ℚ),
      tokenIdInt := args.takerAssetId,
      side := "BUY",
      size := (args.takerAmountFilled : ℚ) }
  else
    { price := if args.makerAmountFilled == 0 then 0
               else (args.takerAmountFilled : ℚ) / (args.makerAmountFilled : ℚ),
      tokenIdInt := args.makerAssetId,
      side := "SELL",
      size := (args.makerAmountFilled : ℚ) }

/-- Indexer.decode_and_process_log (run.py lines 108-205). Drops undecodable
logs and wrapper self-fills, derives side / price / size / token id from the
asset-id and amount pairs, resolves the market with a single discovery retry,
and assembles the trade record. -/
def decodeAndProcessLog (registry : String → List RawMarket) (tso : Nat → Option Nat)
    (log : RawLog) (eventSlug : Option String) (s : StoreState) : ProcResult :=
  match log.decoded with
  | none => ⟨s, none, 0⟩
  | some args =>
    if strLower args.taker == strLower log.address then ⟨s, none, 0⟩
    else
      let nr := normalizeFill args
      let tokenIdHex := tokenHex nr.tokenIdInt
      let res := resolveMarket registry tokenIdHex eventSlug s
      match res.2.1 with
      | none => ⟨res.1, none, res.2.2⟩
      | some market =>
        let outcome :=
          if market.yes_token_id == some tokenIdHex then "YES"
          else if market.no_token_id == some tokenIdHex then "NO"
          else ""
        let timestamp := getBlockTimestamp tso log.blockNumber
        ⟨res.1,
         some { tx_hash := log.transactionHash, log_index := log.logIndex,
                market_id := market.id, maker := args.maker, taker := args.taker,
                side := nr.side, outcome := outcome, price := nr.price, size := nr.size,
                timestamp := timestamp, token_id := tokenIdHex,
                block_number := log.blockNumber },
         res.2.2⟩

/-- The canonical hex rendering of the token id the normalizer selects:
`takerAssetId` on the BUY branch, `makerAssetId` on the SELL branch. -/
def normTokenHex (args : FillArgs) : String :=
  tokenHex (normalizeFill args).tokenIdInt

/-- One iteration of the per-log loop of `run_indexer` (run.py lines 91-98):
process the log against the current store and append a produced trade.
Exceptions inside `decode_and_process_log` are already absorbed into its
`none` branches, matching the `except/continue` of the loop. -/
def processStep (registry : String → List RawMarket) (tso : Nat → Option Nat)
    (eventSlug : Option String) (acc : StoreState × List Trade) (log : RawLog) :
    StoreState × List Trade :=
  let r := decodeAndProcessLog registry tso log eventSlug acc.1
  (r.store, acc.2 ++ r.trade.toList)

/-- The whole per-log loop: fold the step over the fetched logs. -/
def processLogs (registry : String → List RawMarket) (tso : Nat → Option Nat)
    (logs : List RawLog) (eventSlug : Option String) (s : StoreState) :
    StoreState × List Trade :=
  logs.foldl (processStep registry tso eventSlug) (s, [])

/-- Outcome of one `run_indexer` call: a normal return of the processed
trades, or an exception propagating out of the batch insert. -/
inductive RunOutcome where
  | normal (trades : List Trade)
  | raised
deriving DecidableEq

/-- What `w3.eth.get_logs` did: returned a log list, or raised. -/
inductive FetchResult where
  | ok (logs : List RawLog)
  | fetchErr
deriving DecidableEq

/-- Indexer.run_indexer (run.py lines 67-106). A `get_logs` failure is caught
and turned into a normal empty return (lines 82-87). Otherwise every log is
processed, and only when the batch is non-empty are `insert_trades` and then
`update_sync_state to_block` called; `storageOk = false` models
`insert_trades` raising, in which case its transaction rolls back and the
exception propagates out of `run_indexer` before `update_sync_state` runs. -/
def runIndexer (registry : String → List RawMarket) (tso : Nat → Option Nat)
    (fetch : FetchResult) (storageOk : Bool) (fromBlock toBlock : Nat)
    (eventSlug : Option String) (s : StoreState) : StoreState × RunOutcome :=
  match fetch with
  | .fetchErr => (s, .normal [])
  | .ok logs =>
    let pr := processLogs registry tso logs eventSlug s
    if pr.2.isEmpty then (pr.1, .normal pr.2)
    else if storageOk then
      (updateSyncState (insertTrades pr.1 pr.2) toBlock, .normal pr.2)
    else (pr.1, .raised)

/-! Frame lemmas: the discovery and resolution path only touches the
`markets` table, never `trades` or `sync_state`. -/

theorem upsertMarket_trades (s : StoreState) (md : MarketData) :
    (upsertMarket s md).trades = s.trades := by
  unfold upsertMarket
  split
  · rfl
  · split <;> rfl

theorem upsertMarket_syncState (s : StoreState) (md : MarketData) :
    (upsertMarket s md).syncState = s.syncState := by
  unfold upsertMarket
  split
  · rfl
  · split <;> rfl

theorem discoverStep_trades (acc : StoreState × Nat) (raw : RawMarket) :
    (discoverStep acc raw).1.trades = acc.1.trades := by
  unfold discoverStep
  split
  · exact upsertMarket_trades _ _
  · rfl

theorem discoverStep_syncState (acc : StoreState × Nat) (raw : RawMarket) :
    (discoverStep acc raw).1.syncState = acc.1.syncState := by
  unfold discoverStep
  split
  · exact upsertMarket_syncState _ _
  · rfl

theorem discover_foldl_trades (fetched : List RawMarket) (acc : StoreState × Nat) :
    (fetched.foldl discoverStep acc).1.trades = acc.1.trades := by
  induction fetched generalizing acc with
  | nil => rfl
  | cons raw rest ih => rw [List.foldl_cons, ih, discoverStep_trades]

theorem discover_foldl_syncState (fetched : List RawMarket) (acc : StoreState × Nat) :
    (fetched.foldl discoverStep acc).1.syncState = acc.1.syncState := by
  induction fetched generalizing acc with
  | nil => rfl
  | cons raw rest ih => rw [List.foldl_cons, ih, discoverStep_syncState]

theorem discoverAndStoreMarkets_trades (fetched : List RawMarket) (s : StoreState) :
    (discoverAndStoreMarkets fetched s).1.trades = s.trades :=
  discover_foldl_trades fetched (s, 0)

theorem discoverAndStoreMarkets_syncState (fetched : List RawMarket) (s : StoreState) :
    (discoverAndStoreMarkets fetched s).1.syncState = s.syncState :=
  discover_foldl_syncState fetched (s, 0)

theorem resolveMarket_trades (registry : String → List RawMarket) (tok : String)
    (eventSlug : Option String) (s : StoreState) :
    (resolveMarket registry tok eventSlug s).1.trades = s.trades := by
  unfold resolveMarket
  split
  · rfl
  · split
    · exact discoverAndStoreMarkets_trades _ _
    · rfl

theorem resolveMarket_syncState (registry : String → List RawMarket) (tok : String)
    (eventSlug : Option String) (s : StoreState) :
    (resolveMarket registry tok eventSlug s).1.syncState = s.syncState := by
  unfold resolveMarket
  split
  · rfl
  · split
    · exact discoverAndStoreMarkets_syncState _ _
    · rfl

theorem decodeAndProcessLog_trades (registry : String → List RawMarket)
    (tso : Nat → Option Nat) (log : RawLog) (eventSlug : Option String) (s : StoreState) :
    (decodeAndProcessLog registry tso log eventSlug s).store.trades = s.trades := by
  unfold decodeAndProcessLog
  split
  · rfl
  · split
    · rfl
    · dsimp only
      split
      · exact resolveMarket_trades _ _ _ _
      · exact resolveMarket_trades _ _ _ _

theorem decodeAndProcessLog_syncState (registry : String → List RawMarket)
    (tso : Nat → Option Nat) (log : RawLog) (eventSlug : Option String) (s : StoreState) :
    (decodeAndProcessLog registry tso log eventSlug s).store.syncState = s.syncState := by
  unfold decodeAndProcessLog
  split
  · rfl
  · split
    · rfl
    · dsimp only
      split
      · exact resolveMarket_syncState _ _ _ _
      · exact resolveMarket_syncState _ _ _ _

theorem process_foldl_trades (registry : String → List RawMarket) (tso : Nat → Option Nat)
    (eventSlug : Option String) (logs : List RawLog) (acc : StoreState × List Trade) :
    (logs.foldl (processStep registry tso eventSlug) acc).1.trades = acc.1.trades := by
  induction logs generalizing acc with
  | nil => rfl
  | cons log rest ih =>
    rw [List.foldl_cons, ih]
    exact decodeAndProcessLog_trades _ _ _ _ _

theorem process_foldl_syncState (registry : String → List RawMarket) (tso : Nat → Option Nat)
    (eventSlug : Option String) (logs : List RawLog) (acc : StoreState × List Trade) :
    (logs.foldl (processStep registry tso eventSlug) acc).1.syncState = acc.1.syncState := by
  induction logs generalizing acc with
  | nil => rfl
  | cons log rest ih =>
    rw [List.foldl_cons, ih]
    exact decodeAndProcessLog_syncState _ _ _ _ _

theorem processLogs_trades (registry : String → List RawMarket) (tso : Nat → Option Nat)
    (logs : List RawLog) (eventSlug : Option String) (s : StoreState) :
    (processLogs registry tso logs eventSlug s).1.trades = s.trades :=
  process_foldl_trades registry tso eventSlug logs (s, [])

theorem processLogs_syncState (registry : String → List RawMarket) (tso : Nat → Option Nat)
    (logs : List RawLog) (eventSlug : Option String) (s : StoreState) :
    (processLogs registry tso logs eventSlug s).1.syncState = s.syncState :=
  process_foldl_syncState registry tso eventSlug logs (s, [])

/-! Infrastructure for the idempotence of `INSERT OR IGNORE` batches. -/

theorem tradeKeyMem_insertTradeOne_self (tbl : List Trade) (t : Trade) :
    tradeKeyMem (insertTradeOne tbl t) t = true := by
  unfold insertTradeOne
  split
  · assumption
  · simp [tradeKeyMem]

theorem tradeKeyMem_insertTradeOne_mono (tbl : List Trade) (t u : Trade)
    (h : tradeKeyMem tbl t = true) : tradeKeyMem (insertTradeOne tbl u) t = true := by
  unfold insertTradeOne
  split
  · exact h
  · unfold tradeKeyMem at *
    simp only [List.any_append, Bool.or_eq_true]
    exact Or.inl h

theorem insertTradeOne_of_mem (tbl : List Trade) (t : Trade)
    (h : tradeKeyMem tbl t = true) : insertTradeOne tbl t = tbl := by
  unfold insertTradeOne
  simp [h]

theorem tradeKeyMem_foldl (ts tbl : List Trade) (t : Trade)
    (h : tradeKeyMem tbl t = true) :
    tradeKeyMem (ts.foldl insertTradeOne tbl) t = true := by
  induction ts generalizing tbl with
  | nil => exact h
  | cons a rest ih => exact ih _ (tradeKeyMem_insertTradeOne_mono tbl t a h)

theorem tradeKeyMem_foldl_self (ts tbl : List Trade) (t : Trade)
    (h : t ∈ ts) : tradeKeyMem (ts.foldl insertTradeOne tbl) t = true := by
  induction ts generalizing tbl with
  | nil => cases h
  | cons a rest ih =>
    rcases List.mem_cons.mp h with rfl | hmem
    · exact tradeKeyMem_foldl rest _ t (tradeKeyMem_insertTradeOne_self tbl t)
    · exact ih (insertTradeOne tbl a) hmem

theorem foldl_insertTradeOne_id (ts tbl : List Trade)
    (h : ∀ t ∈ ts, tradeKeyMem tbl t = true) :
    ts.foldl insertTradeOne tbl = tbl := by
  induction ts with
  | nil => rfl
  | cons a rest ih =>
    rw [List.foldl_cons, insertTradeOne_of_mem tbl a (h a (List.mem_cons_self a rest))]
    exact ih (fun t ht => h t (List.mem_cons_of_mem a ht))

/-! Uniqueness of `condition_id` across the markets table. -/

/-- The part of the spec's market invariant that the schema (`condition_id
TEXT UNIQUE`) and the upsert's select-by-`condition_id` actually maintain:
any non-null `condition_id` value occurs in at most one row. -/
def condUnique (l : List MarketRow) : Prop :=
  ∀ c : String, (l.countP (fun r => r.condition_id == some c)) ≤ 1

theorem countP_map_id_on (l : List MarketRow) (f : MarketRow → MarketRow)
    (p : MarketRow → Bool) (h : ∀ r, p (f r) = p r) :
    (l.map f).countP p = l.countP p := by
  induction l with
  | nil => rfl
  | cons a rest ih => simp [List.countP_cons, ih, h]

theorem upsertMarket_condUnique (s : StoreState) (md : MarketData)
    (h : condUnique s.markets) : condUnique (upsertMarket s md).markets := by
  cases hcid : md.condition_id with
  | none =>
    intro c
    unfold upsertMarket
    rw [hcid]
    simp only [List.countP_append, List.countP_cons, List.countP_nil]
    have hb : (((none : Option String) == some c)) = false := rfl
    simpa [hb] using h c
  | some cc =>
    cases hfind : s.markets.find? (fun r => r.condition_id == some cc) with
    | some row =>
      intro c'
      unfold upsertMarket
      rw [hcid]
      dsimp only
      rw [hfind]
      dsimp only
      rw [countP_map_id_on]
      · exact h c'
      · intro r
        by_cases hid : (r.id == row.id) = true <;> simp [hid]
    | none =>
      intro c'
      unfold upsertMarket
      rw [hcid]
      dsimp only
      rw [hfind]
      dsimp only
      simp only [List.countP_append, List.countP_cons, List.countP_nil]
      by_cases hcc : cc = c'
      · subst hcc
        have h0 : s.markets.countP (fun r => r.condition_id == some cc) = 0 := by
          rw [List.countP_eq_zero]
          intro a ha
          exact List.find?_eq_none.mp hfind a ha
        simp [h0]
      · have hbf : ((some cc : Option String) == some c') = false := by
          simp [beq_eq_false_iff_ne, hcc]
        simpa [hbf] using h c'

theorem discover_foldl_condUnique (fetched : List RawMarket) (acc : StoreState × Nat)
    (h : condUnique acc.1.markets) :
    condUnique ((fetched.foldl discoverStep acc).1.markets) := by
  induction fetched generalizing acc with
  | nil => exact h
  | cons raw rest ih =>
    rw [List.foldl_cons]
    apply ih
    unfold discoverStep
    split
    · exact upsertMarket_condUnique _ _ h
    · exact h

/-! Shared evaluation lemma for a log that decodes, is not a self-fill, and
whose token resolves against the stored markets on first lookup. -/

theorem decodeAndProcessLog_resolved (registry : String → List RawMarket)
    (tso : Nat → Option Nat) (log : RawLog) (eventSlug : Option String) (s : StoreState)
    (args : FillArgs) (mk : MarketRow)
    (hdec : log.decoded = some args)
    (hself : strLower args.taker ≠ strLower log.address)
    (hmk : fetchMarketByTokenId s (normTokenHex args) = some mk) :
    decodeAndProcessLog registry tso log eventSlug s =
      ⟨s,
       some { tx_hash := log.transactionHash, log_index := log.logIndex,
              market_id := mk.id, maker := args.maker, taker := args.taker,
              side := (normalizeFill args).side,
              outcome :=
                if mk.yes_token_id == some (normTokenHex args) then "YES"
                else if mk.no_token_id == some (normTokenHex args) then "NO"
                else "",
              price := (normalizeFill args).price, size := (normalizeFill args).size,
              timestamp := getBlockTimestamp tso log.blockNumber,
              token_id := normTokenHex args,
              block_number := log.blockNumber },
       0⟩ := by
  have hbeq : (strLower args.taker == strLower log.address) = false :=
    beq_eq_false_iff_ne.mpr hself
  unfold normTokenHex at hmk
  unfold decodeAndProcessLog resolveMarket
  rw [hdec]
  dsimp only
  rw [hbeq]
  rw [hmk]
  rfl

/-! Fixtures used by the concrete witnesses: one stored market whose YES
token is `0x7` and NO token is `0x8`, and the spec's scenario-A fill. -/

def exMarket : MarketRow :=
  ⟨1, some "market-1", some "0xc1", none, some "0x7", some "0x8", some "ACTIVE"⟩

def exStore : StoreState :=
  { markets := [exMarket], nextMarketId := 2, trades := [], syncState := some 0 }

def exArgsA : FillArgs := ⟨"0xhash", "0xMAKER", "0xTAKER", 0, 7, 500000, 1000000, 0⟩

def exLogA : RawLog := ⟨"0xEXCHANGE", "0xTX1", 3, 100, some exArgsA⟩

def noRegistry : String → List RawMarket := fun _ => []

def noTimestamps : Nat → Option Nat := fun _ => none

/-- C1: for every decoded fill event, the normalizer follows the rule table:
`makerAssetId == 0` gives side BUY, price `makerAmountFilled /
takerAmountFilled`, token id `takerAssetId`, size `takerAmountFilled`;
`makerAssetId != 0` gives side SELL, price `takerAmountFilled /
makerAmountFilled`, token id `makerAssetId`, size `makerAmountFilled`. -/
theorem normalizer_rule_table (registry : String → List RawMarket)
    (tso : Nat → Option Nat) (log : RawLog) (eventSlug : Option String) (s : StoreState)
    (args : FillArgs) (mk : MarketRow)
    (hdec : log.decoded = some args)
    (hself : strLower args.taker ≠ strLower log.address)
    (hmk : fetchMarketByTokenId s (normTokenHex args) = some mk) :
    ∃ tr : Trade, (decodeAndProcessLog registry tso log eventSlug s).trade = some tr ∧
      (args.makerAssetId = 0 →
        tr.side = "BUY" ∧
        tr.price = (args.makerAmountFilled : ℚ) / (args.takerAmountFilled : ℚ) ∧
        tr.token_id = tokenHex args.takerAssetId ∧
        tr.size = (args.takerAmountFilled : ℚ)) ∧
      (args.makerAssetId ≠ 0 →
        tr.side = "SELL" ∧
        tr.price = (args.takerAmountFilled : ℚ) / (args.makerAmountFilled : ℚ) ∧
        tr.token_id = tokenHex args.makerAssetId ∧
        tr.size = (args.makerAmountFilled : ℚ)) := by
  rw [decodeAndProcessLog_resolved registry tso log eventSlug s args mk hdec hself hmk]
  refine ⟨_, rfl, fun hma => ?_, fun hma => ?_⟩
  · refine ⟨by simp [normalizeFill, hma], ?_, ?_, ?_⟩
    · by_cases hz : args.takerAmountFilled = 0
      · simp [normalizeFill, hma, hz]
      · simp [normalizeFill, hma, hz]
    · simp [normTokenHex, normalizeFill, hma]
    · simp [normalizeFill, hma]
  · refine ⟨by simp [normalizeFill, hma], ?_, ?_, ?_⟩
    · by_cases hz : args.makerAmountFilled = 0
      · simp [normalizeFill, hma, hz]
      · simp [normalizeFill, hma, hz]
    · simp [normTokenHex, normalizeFill, hma]
    · simp [normalizeFill, hma]

/-- Witness for C1, the spec's scenario A: `makerAssetId=0,
makerAmountFilled=500000, takerAmountFilled=1000000, takerAssetId=7` yields
side BUY, price 1/2, token id `0x7`, size 1000000. -/
theorem normalizer_rule_table_witness :
    ∃ tr : Trade,
      (decodeAndProcessLog noRegistry noTimestamps exLogA none exStore).trade = some tr ∧
      tr.side = "BUY" ∧ tr.price = 1 / 2 ∧ tr.token_id = "0x7" ∧ tr.size = 1000000 := by
  obtain ⟨tr, htr, hbuy, _⟩ :=
    normalizer_rule_table noRegistry noTimestamps exLogA none exStore exArgsA exMarket
      (by rfl) (by decide) (by decide)
  obtain ⟨hs, hp, ht, hz⟩ := hbuy rfl
  refine ⟨tr, htr, hs, ?_, ?_, ?_⟩
  · rw [hp]; norm_num [exArgsA]
  · rw [ht]; decide
  · rw [hz]; norm_num [exArgsA]

/-- C2: inserting the same trade batch twice in succession leaves the trades
table in the same state as inserting it once, with the same row count; rows
whose key already exists are silently ignored, never duplicated. -/
theorem insert_trades_idempotent (s : StoreState) (ts : List Trade) :
    insertTrades (insertTrades s ts) ts = insertTrades s ts ∧
    (insertTrades (insertTrades s ts) ts).trades.length = (insertTrades s ts).trades.length := by
  have key : insertTrades (insertTrades s ts) ts = insertTrades s ts := by
    unfold insertTrades
    cases ts with
    | nil => rfl
    | cons a rest =>
      simp only [List.isEmpty_cons, Bool.false_eq_true, if_false]
      have hT : (a :: rest).foldl insertTradeOne ((a :: rest).foldl insertTradeOne s.trades)
          = (a :: rest).foldl insertTradeOne s.trades :=
        foldl_insertTradeOne_id _ _ (fun t ht => tradeKeyMem_foldl_self _ _ _ ht)
      rw [hT]
  exact ⟨key, by rw [key]⟩

/-! Evaluation lemmas for `runIndexer` in the three regimes of its batch
step: non-empty batch with working storage, non-empty batch with failing
storage, and empty batch. -/

theorem runIndexer_ok_nonempty_success (registry : String → List RawMarket)
    (tso : Nat → Option Nat) (logs : List RawLog) (eventSlug : Option String)
    (s : StoreState) (fromBlock toBlock : Nat)
    (hemp : (processLogs registry tso logs eventSlug s).2.isEmpty = false) :
    runIndexer registry tso (.ok logs) true fromBlock toBlock eventSlug s =
      (updateSyncState
         (insertTrades (processLogs registry tso logs eventSlug s).1
           (processLogs registry tso logs eventSlug s).2) toBlock,
       .normal (processLogs registry tso logs eventSlug s).2) := by
  unfold runIndexer
  dsimp only
  rw [hemp]
  rfl

theorem runIndexer_ok_nonempty_failure (registry : String → List RawMarket)
    (tso : Nat → Option Nat) (logs : List RawLog) (eventSlug : Option String)
    (s : StoreState) (fromBlock toBlock : Nat)
    (hemp : (processLogs registry tso logs eventSlug s).2.isEmpty = false) :
    runIndexer registry tso (.ok logs) false fromBlock toBlock eventSlug s =
      ((processLogs registry tso logs eventSlug s).1, .raised) := by
  unfold runIndexer
  dsimp only
  rw [hemp]
  rfl

theorem runIndexer_ok_empty (registry : String → List RawMarket)
    (tso : Nat → Option Nat) (logs : List RawLog) (eventSlug : Option String)
    (s : StoreState) (storageOk : Bool) (fromBlock toBlock : Nat)
    (hemp : (processLogs registry tso logs eventSlug s).2.isEmpty = true) :
    runIndexer registry tso (.ok logs) storageOk fromBlock toBlock eventSlug s =
      ((processLogs registry tso logs eventSlug s).1,
       .normal (processLogs registry tso logs eventSlug s).2) := by
  unfold runIndexer
  dsimp only
  rw [hemp]
  rfl

/-- C3: the checkpoint is advanced to `to_block` only after the batch insert
succeeded. A successful run over [100,200] with a non-empty batch leaves
`get_sync_state` at 200; if `insert_trades` raises, the exception propagates
before `update_sync_state` is reached, so the trades table and the checkpoint
keep their prior values and the error surfaces as a raised outcome. -/
theorem checkpoint_after_persistence (registry : String → List RawMarket)
    (tso : Nat → Option Nat) (logs : List RawLog) (eventSlug : Option String)
    (s : StoreState)
    (hne : (processLogs registry tso logs eventSlug s).2 ≠ []) :
    getSyncState (runIndexer registry tso (.ok logs) true 100 200 eventSlug s).1 = 200 ∧
    (runIndexer registry tso (.ok logs) false 100 200 eventSlug s).1.trades = s.trades ∧
    getSyncState (runIndexer registry tso (.ok logs) false 100 200 eventSlug s).1
      = getSyncState s ∧
    (runIndexer registry tso (.ok logs) false 100 200 eventSlug s).2 = RunOutcome.raised := by
  have hemp : (processLogs registry tso logs eventSlug s).2.isEmpty = false := by
    cases hp : (processLogs registry tso logs eventSlug s).2 with
    | nil => exact absurd hp hne
    | cons a l => rfl
  have hT := runIndexer_ok_nonempty_success registry tso logs eventSlug s 100 200 hemp
  have hF := runIndexer_ok_nonempty_failure registry tso logs eventSlug s 100 200 hemp
  refine ⟨?_, ?_, ?_, ?_⟩
  · rw [hT]
    rfl
  · rw [hF]
    exact processLogs_trades registry tso logs eventSlug s
  · rw [hF]
    dsimp only [getSyncState]
    rw [processLogs_syncState]
  · rw [hF]

/-- Witness for C3 at a concrete run: one resolvable BUY log over [100,200]
against the fixture store. -/
theorem checkpoint_after_persistence_witness :
    getSyncState (runIndexer noRegistry noTimestamps (.ok [exLogA]) true 100 200 none exStore).1
        = 200 ∧
    (runIndexer noRegistry noTimestamps (.ok [exLogA]) false 100 200 none exStore).1.trades
        = exStore.trades ∧
    getSyncState (runIndexer noRegistry noTimestamps (.ok [exLogA]) false 100 200 none exStore).1
        = getSyncState exStore ∧
    (runIndexer noRegistry noTimestamps (.ok [exLogA]) false 100 200 none exStore).2
        = RunOutcome.raised :=
  checkpoint_after_persistence noRegistry noTimestamps [exLogA] none exStore (by decide)

/-- C4 counterexample: when `get_logs` raises, `run_indexer` catches the
exception (run.py lines 82-87) and returns a normal empty list — the error is
not surfaced to the caller, contradicting the claim's abort-and-surface
policy; the store is untouched. -/
theorem fetch_error_not_surfaced :
    (runIndexer noRegistry noTimestamps FetchResult.fetchErr true 100 200 none exStore).2
        = RunOutcome.normal [] ∧
    RunOutcome.normal ([] : List Trade) ≠ RunOutcome.raised ∧
    (runIndexer noRegistry noTimestamps FetchResult.fetchErr true 100 200 none exStore).1
        = exStore :=
  ⟨rfl, by decide, rfl⟩

/-- C4 amended: when `get_logs` fails, `run_indexer` logs the error and
returns an empty list without re-raising (the error is swallowed, not
surfaced); nothing is persisted and the checkpoint is unchanged. -/
theorem fetch_error_aborts_range (registry : String → List RawMarket)
    (tso : Nat → Option Nat) (storageOk : Bool) (fromBlock toBlock : Nat)
    (eventSlug : Option String) (s : StoreState) :
    runIndexer registry tso FetchResult.fetchErr storageOk fromBlock toBlock eventSlug s
      = (s, RunOutcome.normal []) := rfl

/-- C10: a run in which no trade survives the per-log pipeline (in particular
an empty log list) returns the empty list with a normal outcome, leaves the
trades table and the checkpoint unchanged (the batch-insert block is never
entered), and `insert_trades` on an empty list is the identity. -/
theorem trade_free_run_frame (registry : String → List RawMarket)
    (tso : Nat → Option Nat) (logs : List RawLog) (eventSlug : Option String)
    (s : StoreState) (storageOk : Bool) (fromBlock toBlock : Nat)
    (h : (processLogs registry tso logs eventSlug s).2 = []) :
    runIndexer registry tso (.ok logs) storageOk fromBlock toBlock eventSlug s
      = ((processLogs registry tso logs eventSlug s).1, RunOutcome.normal []) ∧
    (runIndexer registry tso (.ok logs) storageOk fromBlock toBlock eventSlug s).1.trades
      = s.trades ∧
    getSyncState (runIndexer registry tso (.ok logs) storageOk fromBlock toBlock eventSlug s).1
      = getSyncState s ∧
    (∀ st : StoreState, insertTrades st [] = st) := by
  have hemp : (processLogs registry tso logs eventSlug s).2.isEmpty = true := by
    rw [h]
    rfl
  have hrun := runIndexer_ok_empty registry tso logs eventSlug s storageOk fromBlock toBlock hemp
  rw [h] at hrun
  refine ⟨hrun, ?_, ?_, fun st => rfl⟩
  · rw [hrun]
    exact processLogs_trades registry tso logs eventSlug s
  · rw [hrun]
    dsimp only [getSyncState]
    rw [processLogs_syncState]

/-- Witness for C10 at a concrete run: an empty log list over the fixture
store. -/
theorem trade_free_run_frame_witness :
    runIndexer noRegistry noTimestamps (.ok []) true 100 200 none exStore
      = ((processLogs noRegistry noTimestamps [] none exStore).1, RunOutcome.normal []) ∧
    (runIndexer noRegistry noTimestamps (.ok []) true 100 200 none exStore).1.trades
      = exStore.trades ∧
    getSyncState (runIndexer noRegistry noTimestamps (.ok []) true 100 200 none exStore).1
      = getSyncState exStore ∧
    (∀ st : StoreState, insertTrades st [] = st) :=
  trade_free_run_frame noRegistry noTimestamps [] none exStore true 100 200 rfl

/-- A self-fill log: its decoded taker equals the source address up to
case. -/
def exArgsSelf : FillArgs := ⟨"0xh3", "0xMAKER", "0xExchange", 1, 2, 3, 4, 0⟩

def exLogSelf : RawLog := ⟨"0xEXCHANGE", "0xTX3", 5, 100, some exArgsSelf⟩

/-- A BUY fill of token `0x7` whose divisor `takerAmountFilled` is zero. -/
def exArgsZero : FillArgs := ⟨"0xh2", "0xMAKER", "0xTAKER", 0, 7, 5, 0, 0⟩

def exLogZero : RawLog := ⟨"0xEXCHANGE", "0xTX2", 4, 100, some exArgsZero⟩

/-- C6: a log whose decoded taker equals the log's source address, compared
case-insensitively (run.py lines 118-121), is dropped: `decode_and_process_log`
returns None with no side effect, and a run over a batch containing the log
behaves exactly as the run without it — no trade is produced or persisted
from that log. -/
theorem self_fill_filtered (registry : String → List RawMarket)
    (tso : Nat → Option Nat) (log : RawLog) (eventSlug : Option String)
    (s : StoreState) (args : FillArgs)
    (hdec : log.decoded = some args)
    (hself : strLower args.taker = strLower log.address) :
    decodeAndProcessLog registry tso log eventSlug s = ⟨s, none, 0⟩ ∧
    (∀ rest storageOk fromBlock toBlock,
        runIndexer registry tso (.ok (log :: rest)) storageOk fromBlock toBlock eventSlug s
          = runIndexer registry tso (.ok rest) storageOk fromBlock toBlock eventSlug s) := by
  have hbeq : (strLower args.taker == strLower log.address) = true := by
    simp [hself]
  have hd : decodeAndProcessLog registry tso log eventSlug s = ⟨s, none, 0⟩ := by
    unfold decodeAndProcessLog
    rw [hdec]
    dsimp only
    rw [hbeq]
    rfl
  refine ⟨hd, fun rest storageOk fromBlock toBlock => ?_⟩
  have hpl : processLogs registry tso (log :: rest) eventSlug s
      = processLogs registry tso rest eventSlug s := by
    unfold processLogs
    rw [List.foldl_cons]
    unfold processStep
    rw [hd]
    rfl
  unfold runIndexer
  dsimp only
  rw [hpl]

/-- Witness for C6: a decoded taker `0xExchange` against source address
`0xEXCHANGE` (equal after lowercasing) is dropped, and prepending the log to
a batch does not change the run. -/
theorem self_fill_filtered_witness :
    decodeAndProcessLog noRegistry noTimestamps exLogSelf none exStore = ⟨exStore, none, 0⟩ ∧
    runIndexer noRegistry noTimestamps (.ok (exLogSelf :: [exLogA])) true 100 200 none exStore
      = runIndexer noRegistry noTimestamps (.ok [exLogA]) true 100 200 none exStore := by
  obtain ⟨h1, h2⟩ :=
    self_fill_filtered noRegistry noTimestamps exLogSelf none exStore exArgsSelf rfl (by decide)
  exact ⟨h1, h2 [exLogA] true 100 200⟩

/-- C7: when the divisor amount is zero (takerAmountFilled on the BUY branch,
makerAmountFilled on the SELL branch), the guarded division defines the price
as 0 without raising, and the trade record is still produced whenever the
token resolves. -/
theorem division_by_zero_guard (registry : String → List RawMarket)
    (tso : Nat → Option Nat) (log : RawLog) (eventSlug : Option String)
    (s : StoreState) (args : FillArgs) (mk : MarketRow)
    (hdec : log.decoded = some args)
    (hself : strLower args.taker ≠ strLower log.address)
    (hzero : (args.makerAssetId = 0 ∧ args.takerAmountFilled = 0) ∨
             (args.makerAssetId ≠ 0 ∧ args.makerAmountFilled = 0))
    (hmk : fetchMarketByTokenId s (normTokenHex args) = some mk) :
    ∃ tr : Trade, (decodeAndProcessLog registry tso log eventSlug s).trade = some tr ∧
      tr.price = 0 := by
  rw [decodeAndProcessLog_resolved registry tso log eventSlug s args mk hdec hself hmk]
  refine ⟨_, rfl, ?_⟩
  rcases hzero with ⟨hma, hz⟩ | ⟨hma, hz⟩
  · simp [normalizeFill, hma, hz]
  · simp [normalizeFill, hma, hz]

/-- Witness for C7: a BUY fill of token `0x7` with takerAmountFilled 0 still
produces a trade, with price 0. -/
theorem division_by_zero_guard_witness :
    ∃ tr : Trade,
      (decodeAndProcessLog noRegistry noTimestamps exLogZero none exStore).trade = some tr ∧
      tr.price = 0 :=
  division_by_zero_guard noRegistry noTimestamps exLogZero none exStore exArgsZero exMarket
    rfl (by decide) (Or.inl ⟨rfl, rfl⟩) (by decide)

/-- C5: for a token that matches no stored market, with an event slug
supplied, `decode_and_process_log` invokes `discover_and_store_markets`
exactly once and retries the lookup exactly once (against the post-discovery
store); if the retry still misses, that trade alone is dropped (None is
returned) and a run over a batch starting with this log behaves exactly as
the run over the remaining logs from the post-discovery store — the run does
not abort and every other resolvable trade still persists. -/
theorem resolver_discovery_retry (registry : String → List RawMarket)
    (tso : Nat → Option Nat) (log : RawLog) (slug : String) (s : StoreState)
    (args : FillArgs)
    (hdec : log.decoded = some args)
    (hself : strLower args.taker ≠ strLower log.address)
    (hmiss : fetchMarketByTokenId s (normTokenHex args) = none) :
    (decodeAndProcessLog registry tso log (some slug) s).store
        = (discoverAndStoreMarkets (registry slug) s).1 ∧
    (decodeAndProcessLog registry tso log (some slug) s).discoveryCalls = 1 ∧
    (fetchMarketByTokenId (discoverAndStoreMarkets (registry slug) s).1 (normTokenHex args)
        = none →
      (decodeAndProcessLog registry tso log (some slug) s).trade = none ∧
      ∀ rest storageOk fromBlock toBlock,
        runIndexer registry tso (.ok (log :: rest)) storageOk fromBlock toBlock (some slug) s
          = runIndexer registry tso (.ok rest) storageOk fromBlock toBlock (some slug)
              (discoverAndStoreMarkets (registry slug) s).1) := by
  have hbeq : (strLower args.taker == strLower log.address) = false :=
    beq_eq_false_iff_ne.mpr hself
  cases hretry : fetchMarketByTokenId (discoverAndStoreMarkets (registry slug) s).1
      (normTokenHex args) with
  | none =>
    have hd : decodeAndProcessLog registry tso log (some slug) s
        = ⟨(discoverAndStoreMarkets (registry slug) s).1, none, 1⟩ := by
      unfold normTokenHex at hmiss hretry
      unfold decodeAndProcessLog resolveMarket
      rw [hdec]
      dsimp only
      rw [hbeq, hmiss]
      dsimp only
      rw [hretry]
      rfl
    refine ⟨by rw [hd], by rw [hd], fun _ => ⟨by rw [hd], ?_⟩⟩
    intro rest storageOk fromBlock toBlock
    have hpl : processLogs registry tso (log :: rest) (some slug) s
        = processLogs registry tso rest (some slug) (discoverAndStoreMarkets (registry slug) s).1 := by
      unfold processLogs
      rw [List.foldl_cons]
      unfold processStep
      rw [hd]
      rfl
    unfold runIndexer
    dsimp only
    rw [hpl]
  | some mk =>
    have hd : decodeAndProcessLog registry tso log (some slug) s
        = ⟨(discoverAndStoreMarkets (registry slug) s).1,
           some { tx_hash := log.transactionHash, log_index := log.logIndex,
                  market_id := mk.id, maker := args.maker, taker := args.taker,
                  side := (normalizeFill args).side,
                  outcome :=
                    if mk.yes_token_id == some (normTokenHex args) then "YES"
                    else if mk.no_token_id == some (normTokenHex args) then "NO"
                    else "",
                  price := (normalizeFill args).price, size := (normalizeFill args).size,
                  timestamp := getBlockTimestamp tso log.blockNumber,
                  token_id := normTokenHex args, block_number := log.blockNumber },
           1⟩ := by
      unfold normTokenHex at hmiss hretry
      unfold normTokenHex
      unfold decodeAndProcessLog resolveMarket
      rw [hdec]
      dsimp only
      rw [hbeq, hmiss]
      dsimp only
      rw [hretry]
      rfl
    refine ⟨by rw [hd], by rw [hd], fun hcontra => ?_⟩
    exact Option.noConfusion hcontra

/-- A BUY fill of token `0x9`, which no stored market carries. -/
def exArgsMiss : FillArgs := ⟨"0xh4", "0xMAKER", "0xTAKER", 0, 9, 1, 2, 0⟩

def exLogMiss : RawLog := ⟨"0xEXCHANGE", "0xTX4", 6, 100, some exArgsMiss⟩

/-- Witness for C5: token `0x9` resolves against no market of the fresh
store, discovery against an empty registry stores nothing, so the retry also
misses; the trade is dropped and the run equals the run over the remaining
(empty) batch. -/
theorem resolver_discovery_retry_witness :
    (decodeAndProcessLog noRegistry noTimestamps exLogMiss (some "slug-x") initStore).store
        = (discoverAndStoreMarkets (noRegistry "slug-x") initStore).1 ∧
    (decodeAndProcessLog noRegistry noTimestamps exLogMiss (some "slug-x") initStore).discoveryCalls
        = 1 ∧
    (decodeAndProcessLog noRegistry noTimestamps exLogMiss (some "slug-x") initStore).trade
        = none ∧
    runIndexer noRegistry noTimestamps (.ok (exLogMiss :: [])) true 100 200 (some "slug-x") initStore
      = runIndexer noRegistry noTimestamps (.ok []) true 100 200 (some "slug-x")
          (discoverAndStoreMarkets (noRegistry "slug-x") initStore).1 := by
  obtain ⟨h1, h2, h3⟩ :=
    resolver_discovery_retry noRegistry noTimestamps exLogMiss "slug-x" initStore exArgsMiss
      rfl (by decide) (by decide)
  obtain ⟨h4, h5⟩ := h3 (by decide)
  exact ⟨h1, h2, h4, h5 [] true 100 200⟩

/-- A store whose checkpoint already stands at block 200. -/
def exStore200 : StoreState :=
  { markets := [exMarket], nextMarketId := 2, trades := [], syncState := some 200 }

/-- C8 counterexample: a successful run over the old range [10,20] with a
non-empty batch overwrites `last_block` from 200 down to 20 (`INSERT OR
REPLACE` takes `to_block` unconditionally), so the persisted checkpoint is
not monotonically non-decreasing across successful runs. -/
theorem sync_state_regression :
    getSyncState exStore200 = 200 ∧
    getSyncState (runIndexer noRegistry noTimestamps (.ok [exLogA]) true 10 20 none exStore200).1
        = 20 ∧
    ¬ (getSyncState exStore200
        ≤ getSyncState
            (runIndexer noRegistry noTimestamps (.ok [exLogA]) true 10 20 none exStore200).1) := by
  refine ⟨rfl, by decide, by decide⟩

/-- C8 amended: `update_sync_state` overwrites `last_block` with exactly
`to_block`, so after a successful run with a non-empty batch the checkpoint
equals `to_block`; the checkpoint is therefore non-decreasing precisely when
the run's `to_block` is at least the prior value (the normal resume pattern),
and `get_sync_state` returns 0 when no checkpoint row has been stored. -/
theorem sync_state_checkpoint (registry : String → List RawMarket)
    (tso : Nat → Option Nat) (logs : List RawLog) (eventSlug : Option String)
    (s : StoreState) (fromBlock toBlock : Nat)
    (hne : (processLogs registry tso logs eventSlug s).2 ≠ [])
    (hmono : getSyncState s ≤ toBlock) :
    getSyncState (runIndexer registry tso (.ok logs) true fromBlock toBlock eventSlug s).1
        = toBlock ∧
    getSyncState s
      ≤ getSyncState (runIndexer registry tso (.ok logs) true fromBlock toBlock eventSlug s).1 ∧
    (∀ st : StoreState, st.syncState = none → getSyncState st = 0) := by
  have hemp : (processLogs registry tso logs eventSlug s).2.isEmpty = false := by
    cases hp : (processLogs registry tso logs eventSlug s).2 with
    | nil => exact absurd hp hne
    | cons a l => rfl
  have hT := runIndexer_ok_nonempty_success registry tso logs eventSlug s fromBlock toBlock hemp
  refine ⟨?_, ?_, fun st hst => by simp [getSyncState, hst]⟩
  · rw [hT]
    rfl
  · rw [hT]
    exact hmono

/-- Witness for C8 (amended) at a concrete run: the fixture store has
checkpoint 0, and a successful run over [100,200] sets it to 200. -/
theorem sync_state_checkpoint_witness :
    getSyncState (runIndexer noRegistry noTimestamps (.ok [exLogA]) true 100 200 none exStore).1
        = 200 ∧
    getSyncState exStore
      ≤ getSyncState (runIndexer noRegistry noTimestamps (.ok [exLogA]) true 100 200 none exStore).1 ∧
    (∀ st : StoreState, st.syncState = none → getSyncState st = 0) :=
  sync_state_checkpoint noRegistry noTimestamps [exLogA] none exStore 100 200
    (by decide) (by decide)

/-- A Gamma market entry whose outcome labels are `Yes` and `Other`: the
label scan finds a YES token but no NO token, and `process_market_data`
still returns the market (the code only warns). -/
def c9Raw : RawMarket :=
  ⟨some "bad-market", some "0xAbC", none, none, true, false, false, [5, 6], ["Yes", "Other"]⟩

/-- C9 counterexample: the discovery/upsert path stores a market row whose
`no_token_id` is NULL while `yes_token_id` is `0x5`, violating the claimed
invariant that `yes_token_id` and `no_token_id` are distinct non-null
values. -/
theorem discovery_stores_null_no_token :
    ((discoverAndStoreMarkets [c9Raw] initStore).1.markets.map MarketRow.no_token_id) = [none] ∧
    ((discoverAndStoreMarkets [c9Raw] initStore).1.markets.map MarketRow.yes_token_id)
        = [some "0x5"] := by
  decide

/-- The parsed market dictionary used by the C9 witness. -/
def exMarketData : MarketData :=
  ⟨some "market-9", some "0xc9", none, some "0x5", some "0x6", "ACTIVE"⟩

/-- C9 amended: every market created or updated through the discovery/upsert
path keeps `condition_id` a unique key — any non-null condition id occurs in
at most one row — but the code does not enforce that `yes_token_id` and
`no_token_id` are distinct non-null values, nor that a token id resolves to
exactly one market. -/
theorem discovery_preserves_condition_unique (fetched : List RawMarket)
    (md : MarketData) (s : StoreState) (h : condUnique s.markets) :
    condUnique (upsertMarket s md).markets ∧
    condUnique (discoverAndStoreMarkets fetched s).1.markets :=
  ⟨upsertMarket_condUnique s md h, discover_foldl_condUnique fetched (s, 0) h⟩

/-- Witness for C9 (amended): a concrete upsert and a concrete discovery into
the fresh store preserve condition-id uniqueness. -/
theorem discovery_preserves_condition_unique_witness :
    condUnique (upsertMarket initStore exMarketData).markets ∧
    condUnique (discoverAndStoreMarkets [c9Raw] initStore).1.markets := by
  apply discovery_preserves_condition_unique
  intro c
  simp [initStore]
